import Mathlib

/-!
Verification of the Syntax-Sorcerer retrieval pipeline.

This file gives a shallow embedding, in Lean, of the core of the
Syntax-Sorcerer repository and proves the stated properties of its
specification against that embedding.  The embedded components are:

* the per-session chat history stored in a Redis list
  (`src/app/chat/memory/route.js` and `src/app/chat/route.js`),
* the tree-sitter based syntax extractor
  (`src/lib/codeParser/treeSitterParser.js`),
* the embedding service (`embeddingService.js`),
* the Pinecone upsert payload construction (`PineconeManager.upsertEmbeddings`),
* the semantic code-search route (`src/app/database/route.js`).

Redis lists are modelled as `List String` with the HEAD of the Lean list
being the most recently pushed entry (`lPush` prepends, `rPop` removes the
last, i.e. oldest, element).  External services (OpenAI, Pinecone, the file
system) are modelled as explicit parameters of the route functions, and the
outbound calls a route makes are recorded in an explicit trace.
-/

namespace SyntaxSorcerer

/-! ## Redis list-store primitives

The chat history lives in a Redis list under the key `{seed}_chats`.
We model the list for one fixed session, head-first.  `lRem key 1 v`
removes the first occurrence of `v` scanning from the head. -/

/-- The placeholder entry the memory route seeds a fresh history with
("Start of messages" in `memory/route.js`). -/
def startSentinel : String := "Start of messages"

/-- Redis `LPUSH`: prepend a value at the head of the list. -/
def lPush (v : String) (l : List String) : List String := v :: l

/-- Redis `RPOP`: remove the tail (oldest) element of the list. -/
def rPop (l : List String) : List String := l.dropLast

/-- Redis `LREM key 1 v`: remove the first occurrence of `v`, scanning from
the head of the list; a no-op when `v` does not occur. -/
def lRem1 (v : String) : List String → List String
  | [] => []
  | x :: xs => if x = v then xs else x :: lRem1 v xs

/-! ## History window operations

`GET /api/chat/memory` (memory/route.js lines 59-69): if no list exists for
the session (modelled as the empty list, since an empty Redis list and an
absent key are indistinguishable), push the sentinel. -/

/-- Embeds the body of `GET /api/chat/memory`: create the session history
with a single sentinel entry when it does not yet exist, otherwise no-op. -/
def ensureExists (l : List String) : List String :=
  if l.isEmpty then lPush startSentinel l else l

/-- The first two history mutations of `POST /api/chat` (route.js lines
117-120): push the user turn, then `lRem(key, 1, "Start of messages")`. -/
def appendTurn (text : String) (l : List String) : List String :=
  lRem1 startSentinel (lPush text l)

/-- Redis `LRANGE key 0 -1`: the whole list, head (most recent) first. -/
def readAll (l : List String) : List String := l

/-- The entry pushed for the assistant (route.js lines 125-133).  The chat
completion result is modelled as the list `choices`, each element being the
optional `message.content` of one choice.  The JavaScript guard
`data && data.length > 0 && data[0].message && data[0].message.content`
holds exactly when the first choice has a present, non-empty content. -/
def assistantEntry (choices : List (Option String)) : String :=
  match choices.head? with
  | some (some c) =>
      if c = "" then "Error: Something went wrong"
      else "Assistant: " ++ c.trim
  | _ => "Error: Something went wrong"

/-- The two pushes (and the sentinel removal between them) performed by one
`POST /api/chat` request, before the trim (route.js lines 117-133). -/
def appendsPhase (userInput : String) (choices : List (Option String))
    (l : List String) : List String :=
  lPush (assistantEntry choices) (lRem1 startSentinel (lPush ("User: " ++ userInput) l))

/-- The complete history mutation sequence of one `POST /api/chat` request
(route.js lines 117-143): the two pushes, the sentinel removal, and then,
when `lLen` is at least 6, two `rPop` calls removing the two oldest
entries. -/
def chatMutation (userInput : String) (choices : List (Option String))
    (l : List String) : List String :=
  let l3 := appendsPhase userInput choices l
  if 6 ≤ l3.length then rPop (rPop l3) else l3

/-- Folding a whole conversation: each request carries the user input and
the completion choices it happened to receive. -/
def runConversation (reqs : List (String × List (Option String))) : List String :=
  reqs.foldl (fun acc r => chatMutation r.1 r.2 acc) (ensureExists [])

/-! ## Basic lemmas about the list primitives -/

theorem lRem1_length_le (v : String) (l : List String) :
    (lRem1 v l).length ≤ l.length := by
  induction l with
  | nil => simp [lRem1]
  | cons x xs ih =>
      by_cases h : x = v
      · simp [lRem1, h]
      · simp only [lRem1, if_neg h, List.length_cons]
        omega

theorem lRem1_of_not_mem (v : String) (l : List String) (h : v ∉ l) :
    lRem1 v l = l := by
  induction l with
  | nil => rfl
  | cons x xs ih =>
      have hx : x ≠ v := fun hxv => h (by simp [hxv])
      have hxs : v ∉ xs := fun hm => h (List.mem_cons_of_mem _ hm)
      simp [lRem1, hx, ih hxs]

theorem rPop_length (l : List String) : (rPop l).length = l.length - 1 := by
  simp [rPop]

theorem appendsPhase_length_le (u : String) (ch : List (Option String))
    (l : List String) : (appendsPhase u ch l).length ≤ l.length + 2 := by
  have h := lRem1_length_le startSentinel (lPush ("User: " ++ u) l)
  simp only [appendsPhase, lPush, List.length_cons] at *
  omega

theorem chatMutation_length_le (u : String) (ch : List (Option String))
    (l : List String) (h : l.length ≤ 6) :
    (chatMutation u ch l).length ≤ 6 := by
  have hap := appendsPhase_length_le u ch l
  by_cases h6 : 6 ≤ (appendsPhase u ch l).length
  · simp only [chatMutation, if_pos h6, rPop_length]
    omega
  · simp only [chatMutation, if_neg h6]
    omega

/-! ## Sentinel-freshness of pushed entries -/

theorem userEntry_ne_sentinel (t : String) : ("User: " ++ t) ≠ startSentinel := by
  intro h
  have h2 : ("User: ").data ++ t.data = startSentinel.data := by
    rw [← String.data_append, h]
  have h3 : (some 'U' : Option Char) = some 'S' := congrArg List.head? h2
  exact absurd (Option.some.inj h3) (by decide)

theorem assistantText_ne_sentinel (t : String) :
    ("Assistant: " ++ t) ≠ startSentinel := by
  intro h
  have h2 : ("Assistant: ").data ++ t.data = startSentinel.data := by
    rw [← String.data_append, h]
  have h3 : (some 'A' : Option Char) = some 'S' := congrArg List.head? h2
  exact absurd (Option.some.inj h3) (by decide)

theorem assistantEntry_ne_sentinel (ch : List (Option String)) :
    assistantEntry ch ≠ startSentinel := by
  unfold assistantEntry
  match ch.head? with
  | some (some c) =>
      by_cases hc : c = ""
      · simp only [hc, if_pos rfl]
        decide
      · simp only [if_neg hc]
        exact assistantText_ne_sentinel c.trim
  | some none => decide
  | none => decide

/-! ## The paired structure of the recorded conversation -/

/-- An entry recording a user turn: the literal prefix "User: " followed by
the user's input. -/
def isUserEntry (s : String) : Prop := ∃ t, s = "User: " ++ t

/-- An entry recording the assistant side of a turn: either "Assistant: "
followed by the trimmed reply, or the literal fallback error entry. -/
def isAssistantRecord (s : String) : Prop :=
  (∃ t, s = "Assistant: " ++ t) ∨ s = "Error: Something went wrong"

/-- A history list made of complete turn pairs, each an assistant record
directly followed (head-first, i.e. pushed directly after) by the user turn
it answers. -/
inductive PairedLog : List String → Prop
  | nil : PairedLog []
  | pair (a u : String) (rest : List String) :
      isAssistantRecord a → isUserEntry u → PairedLog rest →
      PairedLog (a :: u :: rest)

theorem isAssistantRecord_assistantEntry (ch : List (Option String)) :
    isAssistantRecord (assistantEntry ch) := by
  unfold assistantEntry
  match ch.head? with
  | some (some c) =>
      by_cases hc : c = ""
      · simp only [hc, if_pos rfl]
        exact Or.inr rfl
      · simp only [if_neg hc]
        exact Or.inl ⟨c.trim, rfl⟩
  | some none => exact Or.inr rfl
  | none => exact Or.inr rfl

theorem pairedLog_dropLast_dropLast {l : List String} (h : PairedLog l) :
    PairedLog (l.dropLast.dropLast) := by
  induction h with
  | nil => exact PairedLog.nil
  | pair a u rest ha hu hrest ih =>
      cases hrest with
      | nil => exact PairedLog.nil
      | pair a2 u2 rest2 ha2 hu2 hrest2 =>
          exact PairedLog.pair a u _ ha hu ih

theorem not_mem_dropLast {v : String} {l : List String} (h : v ∉ l) :
    v ∉ l.dropLast := fun hm => h (List.mem_of_mem_dropLast hm)

/-- The invariant of the session history: it is either still the freshly
seeded placeholder list, or a sentinel-free log of complete turn pairs. -/
def HistInv (l : List String) : Prop :=
  l = [startSentinel] ∨ (PairedLog l ∧ startSentinel ∉ l)

theorem appendsPhase_eq_of_not_mem (u : String) (ch : List (Option String))
    {l : List String} (hs : startSentinel ∉ l) :
    appendsPhase u ch l = assistantEntry ch :: ("User: " ++ u) :: l := by
  unfold appendsPhase lPush
  rw [lRem1]
  rw [if_neg (userEntry_ne_sentinel u), lRem1_of_not_mem _ _ hs]

theorem chatMutation_paired (u : String) (ch : List (Option String))
    {l : List String} (h : HistInv l) :
    PairedLog (chatMutation u ch l) ∧ startSentinel ∉ chatMutation u ch l := by
  have key : PairedLog (appendsPhase u ch l) ∧
      startSentinel ∉ appendsPhase u ch l := by
    cases h with
    | inl h1 =>
        have : appendsPhase u ch l =
            [assistantEntry ch, "User: " ++ u] := by
          subst h1
          unfold appendsPhase lPush
          rw [lRem1, if_neg (userEntry_ne_sentinel u), lRem1, if_pos rfl]
        rw [this]
        constructor
        · exact PairedLog.pair _ _ _ (isAssistantRecord_assistantEntry ch)
            ⟨u, rfl⟩ PairedLog.nil
        · intro hm
          rcases List.mem_pair.mp hm with hm | hm
          · exact assistantEntry_ne_sentinel ch hm.symm
          · exact userEntry_ne_sentinel u hm.symm
    | inr h2 =>
        rw [appendsPhase_eq_of_not_mem u ch h2.2]
        constructor
        · exact PairedLog.pair _ _ _ (isAssistantRecord_assistantEntry ch)
            ⟨u, rfl⟩ h2.1
        · intro hm
          rcases List.mem_cons.mp hm with hm | hm
          · exact assistantEntry_ne_sentinel ch hm.symm
          · rcases List.mem_cons.mp hm with hm2 | hm2
            · exact userEntry_ne_sentinel u hm2.symm
            · exact h2.2 hm2
  unfold chatMutation
  by_cases h6 : 6 ≤ (appendsPhase u ch l).length
  · rw [if_pos h6]
    exact ⟨pairedLog_dropLast_dropLast key.1,
      not_mem_dropLast (not_mem_dropLast key.2)⟩
  · rw [if_neg h6]
    exact key

theorem histInv_chatMutation (u : String) (ch : List (Option String))
    {l : List String} (h : HistInv l) : HistInv (chatMutation u ch l) :=
  Or.inr (chatMutation_paired u ch h)

theorem histInv_foldl (reqs : List (String × List (Option String))) :
    ∀ l : List String, HistInv l →
      HistInv (reqs.foldl (fun acc r => chatMutation r.1 r.2 acc) l) := by
  induction reqs with
  | nil => intro l h; simpa using h
  | cons r rest ih =>
      intro l h
      exact ih _ (histInv_chatMutation r.1 r.2 h)

theorem foldl_chatMutation_length_le
    (reqs : List (String × List (Option String))) :
    ∀ l : List String, l.length ≤ 6 →
      (reqs.foldl (fun acc r => chatMutation r.1 r.2 acc) l).length ≤ 6 := by
  induction reqs with
  | nil => intro l h; simpa using h
  | cons r rest ih =>
      intro l h
      exact ih _ (chatMutation_length_le r.1 r.2 l h)

/-! ## Claim theorems for the history window -/

/-- C2: after each complete history mutation sequence of one chat request
(the two pushes, the sentinel removal and the conditional trim), the
session history holds at most 6 entries; whenever the length after the
appends is at least 6, exactly the two oldest (tail) entries are removed;
and a conversation of any number of requests (in particular one performing
7 or more real appends) started from the seeded placeholder list always
ends each request with at most 6 entries. -/
theorem chat_history_window_bounded (u : String) (ch : List (Option String))
    (l : List String) (h : l.length ≤ 6) :
    (chatMutation u ch l).length ≤ 6 ∧
    (6 ≤ (appendsPhase u ch l).length →
      chatMutation u ch l = ((appendsPhase u ch l).dropLast).dropLast) ∧
    ∀ reqs : List (String × List (Option String)),
      (runConversation reqs).length ≤ 6 := by
  refine ⟨chatMutation_length_le u ch l h, ?_, ?_⟩
  · intro h6
    simp only [chatMutation, rPop, if_pos h6]
  · intro reqs
    unfold runConversation
    exact foldl_chatMutation_length_le reqs _ (by decide)

theorem chat_history_window_bounded_witness :
    (chatMutation "hi" [some "ok"] ["Assistant: a", "User: b"]).length ≤ 6 :=
  (chat_history_window_bounded "hi" [some "ok"] ["Assistant: a", "User: b"]
    (by decide)).1

/-- C8: starting uninitialized, `ensureExists` seeds the session list with
the single sentinel entry and is a no-op on an existing list; `appendTurn`
prepends the turn at the head and removes exactly one sentinel instance on
the first real append, so `ensureExists` then `appendTurn "User: hi"` then
`readAll` yields exactly `["User: hi"]`. -/
theorem history_init_and_first_append (t : String) (ht : t ≠ startSentinel) :
    ensureExists [] = [startSentinel] ∧
    (∀ l : List String, l ≠ [] → ensureExists l = l) ∧
    readAll (appendTurn "User: hi" (ensureExists [])) = ["User: hi"] ∧
    appendTurn t [startSentinel] = [t] := by
  refine ⟨rfl, ?_, by decide, ?_⟩
  · intro l hl
    cases l with
    | nil => exact absurd rfl hl
    | cons x xs => rfl
  · unfold appendTurn lPush
    rw [lRem1, if_neg ht, lRem1, if_pos rfl]

theorem history_init_and_first_append_witness :
    appendTurn "User: hi" [startSentinel] = ["User: hi"] :=
  (history_init_and_first_append "User: hi" (by decide)).2.2.2

/-- C9: one chat request pushes exactly two entries onto the session
history — first the user turn "User: " followed by the input, then an
assistant record, which is "Assistant: " followed by the trimmed reply when
the first completion choice carries non-empty content and the literal
"Error: Something went wrong" otherwise — so every history reachable by
whole requests is a log of complete assistant/user pairs and never records
a user turn without its paired assistant entry. -/
theorem chat_request_records_paired_turns (u : String)
    (ch : List (Option String)) (l : List String)
    (hp : PairedLog l) (hs : startSentinel ∉ l) :
    appendsPhase u ch l = assistantEntry ch :: ("User: " ++ u) :: l ∧
    (∀ c : String, ∀ rest : List (Option String), c ≠ "" →
      assistantEntry (some c :: rest) = "Assistant: " ++ c.trim) ∧
    (∀ rest : List (Option String),
      assistantEntry (none :: rest) = "Error: Something went wrong") ∧
    assistantEntry [] = "Error: Something went wrong" ∧
    (PairedLog (chatMutation u ch l) ∧
      startSentinel ∉ chatMutation u ch l) ∧
    ∀ reqs : List (String × List (Option String)),
      PairedLog (runConversation (reqs ++ [(u, ch)])) := by
  refine ⟨appendsPhase_eq_of_not_mem u ch hs, ?_, ?_, rfl,
    chatMutation_paired u ch (Or.inr ⟨hp, hs⟩), ?_⟩
  · intro c rest hc
    simp [assistantEntry, hc]
  · intro rest
    simp [assistantEntry]
  · intro reqs
    unfold runConversation
    rw [List.foldl_append]
    exact (chatMutation_paired u ch
      (histInv_foldl reqs _ (Or.inl rfl))).1

theorem chat_request_records_paired_turns_witness :
    appendsPhase "hi" [some "yes"] [] =
      assistantEntry [some "yes"] :: ("User: " ++ "hi") :: [] :=
  (chat_request_records_paired_turns "hi" [some "yes"] [] PairedLog.nil
    (by simp)).1

/-! ## Tree-sitter AST model (`treeSitterParser.js`)

A tree-sitter node exposes `type`, `text`, its children (in order) and
field-named child lookup; `fieldName` records under which grammar field the
node hangs off its parent.  The node type and its child list are a mutual
pair so that the depth-first traversal below is structurally recursive and
evaluates inside the kernel. -/

mutual

inductive TSNode where
  | node (ty : String) (text : String) (fieldName : Option String)
      (children : TSNodeList)

inductive TSNodeList where
  | nil : TSNodeList
  | cons : TSNode → TSNodeList → TSNodeList

end

def TSNode.ty : TSNode → String
  | .node t _ _ _ => t

def TSNode.text : TSNode → String
  | .node _ s _ _ => s

def TSNode.fieldName : TSNode → Option String
  | .node _ _ f _ => f

def TSNode.children : TSNode → TSNodeList
  | .node _ _ _ cs => cs

def TSNodeList.get? : TSNodeList → Nat → Option TSNode
  | .nil, _ => none
  | .cons c _, 0 => some c
  | .cons _ cs, i + 1 => cs.get? i

def TSNodeList.toList : TSNodeList → List TSNode
  | .nil => []
  | .cons c cs => c :: cs.toList

/-- Tree-sitter `node.child(i)`. -/
def TSNode.child (n : TSNode) (i : Nat) : Option TSNode :=
  n.children.get? i

def TSNodeList.findField : TSNodeList → String → Option TSNode
  | .nil, _ => none
  | .cons c cs, f => if c.fieldName = some f then some c else cs.findField f

/-- Tree-sitter `node.childForFieldName(f)`. -/
def TSNode.childForFieldName (n : TSNode) (f : String) : Option TSNode :=
  n.children.findField f

/-- An extracted function: `{code, function_name, filepath}` as pushed by
`traverse` in `treeSitterParser.js`. -/
structure FunctionUnit where
  code : String
  function_name : String
  filepath : String
  deriving DecidableEq

/-- An extracted class: `{code, class_name, filepath}` as pushed by
`traverse` in `treeSitterParser.js`. -/
structure ClassUnit where
  code : String
  class_name : String
  filepath : String
  deriving DecidableEq

/-- The three node types recognized as functions (treeSitterParser.js lines
36-40). -/
def functionNodeTypes : List String :=
  ["function_declaration", "arrow_function", "function_expression"]

/-- The second sequential check of `extractFunctionName` (treeSitterParser.js
lines 105-110 and the final fallback of line 113): an object property's key,
else "anonymous". -/
def extractFromPair (p : TSNode) : String :=
  if p.ty = "pair" then
    match p.childForFieldName "key" with
    | some k => k.text
    | none => "anonymous"
  else "anonymous"

/-- Embeds `extractFunctionName` (treeSitterParser.js lines 93-114).  The
JavaScript reads `node.parent`; here the traversal passes the parent in
explicitly (`none` at the root).  The declarator check returns early when a
name field is found, and otherwise control falls through to the pair
check. -/
def extractFunctionName (parent : Option TSNode) : String :=
  match parent with
  | none => "anonymous"
  | some p =>
      if p.ty = "variable_declarator" then
        match p.childForFieldName "name" with
        | some nn => nn.text
        | none => extractFromPair p
      else extractFromPair p

/-- The `functionName` computed while visiting a function node
(treeSitterParser.js lines 41-45): a declaration's second child when
present, else `extractFunctionName`. -/
def codeFunctionName (parent : Option TSNode) (n : TSNode) : String :=
  if n.ty = "function_declaration" ∧ (n.child 1).isSome then
    ((n.child 1).map TSNode.text).getD ""
  else extractFunctionName parent

/-- The function units pushed while visiting one node (treeSitterParser.js
lines 36-54): guarded by `functionName && functionName !== "anonymous"`
(JavaScript truthiness: the name must be non-empty). -/
def functionUnitsAtNode (fp : String) (parent : Option TSNode) (n : TSNode) :
    List FunctionUnit :=
  if n.ty ∈ functionNodeTypes then
    if codeFunctionName parent n ≠ "" ∧ codeFunctionName parent n ≠ "anonymous"
    then [⟨n.text, codeFunctionName parent n, fp⟩]
    else []
  else []

/-- The class units pushed while visiting one node (treeSitterParser.js
lines 57-68): guarded by `if (className)`. -/
def classUnitsAtNode (fp : String) (n : TSNode) : List ClassUnit :=
  if n.ty = "class_declaration" then
    match n.childForFieldName "name" with
    | some nn => if nn.text ≠ "" then [⟨n.text, nn.text, fp⟩] else []
    | none => []
  else []

/-- The units pushed while visiting one node. -/
def unitsAtNode (fp : String) (parent : Option TSNode) (n : TSNode) :
    List FunctionUnit × List ClassUnit :=
  (functionUnitsAtNode fp parent n, classUnitsAtNode fp n)

mutual

/-- Embeds `traverse` (treeSitterParser.js lines 34-74): visit the node,
push its units, then recurse into the children in order. -/
def traverseNode (fp : String) (parent : Option TSNode) :
    TSNode → List FunctionUnit × List ClassUnit
  | TSNode.node ty tx f cs =>
      let here := unitsAtNode fp parent (TSNode.node ty tx f cs)
      let rest := traverseChildren fp (TSNode.node ty tx f cs) cs
      (here.1 ++ rest.1, here.2 ++ rest.2)

def traverseChildren (fp : String) (p : TSNode) :
    TSNodeList → List FunctionUnit × List ClassUnit
  | TSNodeList.nil => ([], [])
  | TSNodeList.cons c cs =>
      let r1 := traverseNode fp (some p) c
      let r2 := traverseChildren fp p cs
      (r1.1 ++ r2.1, r1.2 ++ r2.2)

end

/-- Embeds the result of `parseCodeWithTreeSitter` (functions and classes
arrays) for a parsed tree: `traverse(tree.rootNode)` starts at the root,
whose parent is null. -/
def parseResult (fp : String) (root : TSNode) :
    List FunctionUnit × List ClassUnit :=
  traverseNode fp none root

/-! ## Spec-side name resolution and unit counting

These definitions follow the specification's words (§4.1 name resolution
and §8 extraction counts) and are compared with the embedded extractor. -/

/-- A resolved name the extractor can actually use: present, non-empty and
not the literal "anonymous". -/
def usableName : Option String → Prop
  | some s => s ≠ "" ∧ s ≠ "anonymous"
  | none => False

instance (o : Option String) : Decidable (usableName o) :=
  match o with
  | some s => inferInstanceAs (Decidable (s ≠ "" ∧ s ≠ "anonymous"))
  | none => Decidable.isFalse (fun h => h)

/-- A present, non-empty name (the truthiness test applied to class
names). -/
def presentName : Option String → Prop
  | some s => s ≠ ""
  | none => False

instance (o : Option String) : Decidable (presentName o) :=
  match o with
  | some s => inferInstanceAs (Decidable (s ≠ ""))
  | none => Decidable.isFalse (fun h => h)

/-- Modelled from the spec (§4.1): the name contributed by the function's
surrounding context — the binding's name when the function is the
right-hand side of a variable binding, else the property key when it is the
value of an object property. -/
def specBindingName (parent : Option TSNode) : Option String :=
  match parent with
  | some p =>
      if p.ty = "variable_declarator" then
        (p.childForFieldName "name").map TSNode.text
      else if p.ty = "pair" then
        (p.childForFieldName "key").map TSNode.text
      else none
  | none => none

/-- Modelled from the spec (§4.1): the resolved name of a function node —
a declaration's explicit name (its second child) when present, otherwise
the contextual name. -/
def specFunctionName (parent : Option TSNode) (n : TSNode) : Option String :=
  if n.ty = "function_declaration" ∧ (n.child 1).isSome then
    (n.child 1).map TSNode.text
  else specBindingName parent

/-- Modelled from the spec: a function node that yields a unit — one of the
three function shapes whose resolved name is usable. -/
def specEmitsFunction (parent : Option TSNode) (n : TSNode) : Prop :=
  n.ty ∈ functionNodeTypes ∧ usableName (specFunctionName parent n)

instance (parent : Option TSNode) (n : TSNode) :
    Decidable (specEmitsFunction parent n) :=
  inferInstanceAs (Decidable (_ ∧ _))

/-- Modelled from the spec: a class node that yields a unit — a class
declaration with a present declared name. -/
def specEmitsClass (n : TSNode) : Prop :=
  n.ty = "class_declaration" ∧
    presentName ((n.childForFieldName "name").map TSNode.text)

instance (n : TSNode) : Decidable (specEmitsClass n) :=
  inferInstanceAs (Decidable (_ ∧ _))

mutual

/-- Modelled from the spec: how many function units a depth-first walk of
the subtree should yield — one per function node with a usable resolved
name, at any nesting depth. -/
def specFunctionCount (parent : Option TSNode) : TSNode → Nat
  | TSNode.node ty tx f cs =>
      (if specEmitsFunction parent (TSNode.node ty tx f cs) then 1 else 0) +
        specFunctionCountList (TSNode.node ty tx f cs) cs

def specFunctionCountList (p : TSNode) : TSNodeList → Nat
  | TSNodeList.nil => 0
  | TSNodeList.cons c cs =>
      specFunctionCount (some p) c + specFunctionCountList p cs

end

mutual

/-- Modelled from the spec: how many class units a depth-first walk of the
subtree should yield — one per class declaration with a present name. -/
def specClassCount : TSNode → Nat
  | TSNode.node ty tx f cs =>
      (if specEmitsClass (TSNode.node ty tx f cs) then 1 else 0) +
        specClassCountList cs

def specClassCountList : TSNodeList → Nat
  | TSNodeList.nil => 0
  | TSNodeList.cons c cs => specClassCount c + specClassCountList cs

end

/-! ## Correspondence between the extractor and the spec-side counts -/

theorem extractFunctionName_eq_specBindingName (parent : Option TSNode) :
    extractFunctionName parent = (specBindingName parent).getD "anonymous" := by
  cases parent with
  | none => rfl
  | some p =>
      by_cases hd : p.ty = "variable_declarator"
      · have hp : ¬ p.ty = "pair" := by rw [hd]; decide
        cases hm : p.childForFieldName "name" with
        | some nn =>
            simp [extractFunctionName, specBindingName, hd, hm]
        | none =>
            simp [extractFunctionName, extractFromPair, specBindingName,
              hd, hp, hm]
      · by_cases hp : p.ty = "pair"
        · cases hm : p.childForFieldName "key" with
          | some k =>
              simp [extractFunctionName, extractFromPair, specBindingName,
                hd, hp, hm]
          | none =>
              simp [extractFunctionName, extractFromPair, specBindingName,
                hd, hp, hm]
        · simp [extractFunctionName, extractFromPair, specBindingName, hd, hp]

theorem functionUnitsAtNode_length (fp : String) (parent : Option TSNode)
    (n : TSNode) :
    (functionUnitsAtNode fp parent n).length =
      (if specEmitsFunction parent n then 1 else 0) := by
  by_cases hfn : n.ty ∈ functionNodeTypes
  case neg =>
    have hne : ¬ specEmitsFunction parent n := fun hc => hfn hc.1
    simp [functionUnitsAtNode, hfn, hne]
  case pos =>
    have husable :
        (codeFunctionName parent n ≠ "" ∧
          codeFunctionName parent n ≠ "anonymous") ↔
          usableName (specFunctionName parent n) := by
      unfold codeFunctionName specFunctionName
      by_cases hdecl : n.ty = "function_declaration" ∧ (n.child 1).isSome
      · rw [if_pos hdecl, if_pos hdecl]
        rcases Option.isSome_iff_exists.mp hdecl.2 with ⟨nn, hnn⟩
        rw [hnn]
        simp [usableName]
      · rw [if_neg hdecl, if_neg hdecl,
          extractFunctionName_eq_specBindingName]
        cases hb : specBindingName parent with
        | some s => simp [usableName]
        | none => simp [usableName]
    by_cases hg : codeFunctionName parent n ≠ "" ∧
        codeFunctionName parent n ≠ "anonymous"
    · have he : specEmitsFunction parent n := ⟨hfn, husable.mp hg⟩
      simp [functionUnitsAtNode, hfn, hg, he]
    · have hne : ¬ specEmitsFunction parent n :=
        fun hc => hg (husable.mpr hc.2)
      simp [functionUnitsAtNode, hfn, hg, hne]

theorem classUnitsAtNode_length (fp : String) (n : TSNode) :
    (classUnitsAtNode fp n).length = (if specEmitsClass n then 1 else 0) := by
  by_cases hcl : n.ty = "class_declaration"
  · cases hb : n.childForFieldName "name" with
    | some nn =>
        by_cases hg : nn.text ≠ ""
        · have he : specEmitsClass n := by
            refine ⟨hcl, ?_⟩
            rw [hb]
            exact hg
          simp [classUnitsAtNode, hcl, hb, hg, he]
        · have hne : ¬ specEmitsClass n := by
            intro hc
            have h2 := hc.2
            rw [hb] at h2
            exact hg h2
          simp [classUnitsAtNode, hcl, hb, hg, hne]
    | none =>
        have hne : ¬ specEmitsClass n := by
          intro hc
          have h2 := hc.2
          rw [hb] at h2
          exact h2
        simp [classUnitsAtNode, hcl, hb, hne]
  · have hne : ¬ specEmitsClass n := fun hc => hcl hc.1
    simp [classUnitsAtNode, hcl, hne]

mutual

theorem traverseNode_counts (fp : String) (parent : Option TSNode)
    (n : TSNode) :
    (traverseNode fp parent n).1.length = specFunctionCount parent n ∧
    (traverseNode fp parent n).2.length = specClassCount n :=
  match n with
  | TSNode.node ty tx f cs => by
      have hrest := traverseChildren_counts fp (TSNode.node ty tx f cs) cs
      have hf := functionUnitsAtNode_length fp parent (TSNode.node ty tx f cs)
      have hc := classUnitsAtNode_length fp (TSNode.node ty tx f cs)
      have heq : traverseNode fp parent (TSNode.node ty tx f cs) =
          (functionUnitsAtNode fp parent (TSNode.node ty tx f cs) ++
              (traverseChildren fp (TSNode.node ty tx f cs) cs).1,
            classUnitsAtNode fp (TSNode.node ty tx f cs) ++
              (traverseChildren fp (TSNode.node ty tx f cs) cs).2) := rfl
      have heqf : specFunctionCount parent (TSNode.node ty tx f cs) =
          (if specEmitsFunction parent (TSNode.node ty tx f cs) then 1 else 0) +
            specFunctionCountList (TSNode.node ty tx f cs) cs := rfl
      have heqc : specClassCount (TSNode.node ty tx f cs) =
          (if specEmitsClass (TSNode.node ty tx f cs) then 1 else 0) +
            specClassCountList cs := rfl
      rw [heq, heqf, heqc]
      simp only [List.length_append]
      rw [hf, hc, hrest.1, hrest.2]
      exact ⟨rfl, rfl⟩

theorem traverseChildren_counts (fp : String) (p : TSNode)
    (cs : TSNodeList) :
    (traverseChildren fp p cs).1.length = specFunctionCountList p cs ∧
    (traverseChildren fp p cs).2.length = specClassCountList cs :=
  match cs with
  | TSNodeList.nil => ⟨rfl, rfl⟩
  | TSNodeList.cons c rest => by
      have h1 := traverseNode_counts fp (some p) c
      have h2 := traverseChildren_counts fp p rest
      have heq : traverseChildren fp p (TSNodeList.cons c rest) =
          ((traverseNode fp (some p) c).1 ++ (traverseChildren fp p rest).1,
            (traverseNode fp (some p) c).2 ++ (traverseChildren fp p rest).2) := rfl
      have heqf : specFunctionCountList p (TSNodeList.cons c rest) =
          specFunctionCount (some p) c + specFunctionCountList p rest := rfl
      have heqc : specClassCountList (TSNodeList.cons c rest) =
          specClassCount c + specClassCountList rest := rfl
      rw [heq, heqf, heqc]
      simp only [List.length_append]
      rw [h1.1, h1.2, h2.1, h2.2]
      exact ⟨rfl, rfl⟩

end

/-! ## Concrete syntax trees

Trees as tree-sitter produces them for small JavaScript files: a
declaration's children are the `function` keyword, the name identifier
(child 1), the parameters and the body. -/

/-- The tree of `function inner() {}`. -/
def innerDecl : TSNode :=
  TSNode.node "function_declaration" "function inner() {}" none
    (TSNodeList.cons (TSNode.node "function" "function" none TSNodeList.nil)
      (TSNodeList.cons
        (TSNode.node "identifier" "inner" (some "name") TSNodeList.nil)
        (TSNodeList.cons
          (TSNode.node "formal_parameters" "()" (some "parameters")
            TSNodeList.nil)
          (TSNodeList.cons
            (TSNode.node "statement_block" "{}" (some "body") TSNodeList.nil)
            TSNodeList.nil))))

/-- The tree of `function outer() { function inner() {} }`: one top-level
function declaration whose body holds a nested named declaration. -/
def outerDecl : TSNode :=
  TSNode.node "function_declaration"
    "function outer() { function inner() {} }" none
    (TSNodeList.cons (TSNode.node "function" "function" none TSNodeList.nil)
      (TSNodeList.cons
        (TSNode.node "identifier" "outer" (some "name") TSNodeList.nil)
        (TSNodeList.cons
          (TSNode.node "formal_parameters" "()" (some "parameters")
            TSNodeList.nil)
          (TSNodeList.cons
            (TSNode.node "statement_block" "{ function inner() {} }"
              (some "body") (TSNodeList.cons innerDecl TSNodeList.nil))
            TSNodeList.nil))))

/-- The program root of a file whose only top-level definition is
`outerDecl`. -/
def nestedProgram : TSNode :=
  TSNode.node "program" "function outer() { function inner() {} }" none
    (TSNodeList.cons outerDecl TSNodeList.nil)

/-- The arrow function of `const anonymous = () => 1`. -/
def anonNamedArrow : TSNode :=
  TSNode.node "arrow_function" "() => 1" (some "value") TSNodeList.nil

/-- The variable declarator of `const anonymous = () => 1`: a binding whose
name is the literal string "anonymous". -/
def anonymousBinding : TSNode :=
  TSNode.node "variable_declarator" "anonymous = () => 1" none
    (TSNodeList.cons
      (TSNode.node "identifier" "anonymous" (some "name") TSNodeList.nil)
      (TSNodeList.cons anonNamedArrow TSNodeList.nil))

/-- The arrow function of `const add = (a, b) => a + b`. -/
def addArrow : TSNode :=
  TSNode.node "arrow_function" "(a, b) => a + b" (some "value") TSNodeList.nil

/-- The variable declarator of `const add = (a, b) => a + b`. -/
def addBinding : TSNode :=
  TSNode.node "variable_declarator" "add = (a, b) => a + b" none
    (TSNodeList.cons
      (TSNode.node "identifier" "add" (some "name") TSNodeList.nil)
      (TSNodeList.cons addArrow TSNodeList.nil))

/-- A callback argument position: the parent of an anonymous arrow passed
directly to a call, as in `data.filter((item) => item.active)`. -/
def callArguments : TSNode :=
  TSNode.node "arguments" "((item) => item.active)" none
    (TSNodeList.cons
      (TSNode.node "arrow_function" "(item) => item.active" none
        TSNodeList.nil)
      TSNodeList.nil)

/-- The anonymous callback arrow inside `callArguments`. -/
def anonCallback : TSNode :=
  TSNode.node "arrow_function" "(item) => item.active" none TSNodeList.nil

/-! ## Claim theorems for the syntax extractor -/

/-- C1 counterexample: the file `function outer() { function inner() {} }`
contains exactly one uniquely-named top-level function (one function node
among the root's children, resolving to the name "outer") and no classes,
yet extraction yields two function units rather than one — the traversal
also emits the nested named function. -/
theorem extraction_count_counterexample :
    nestedProgram.children.toList.countP
        (fun c => functionNodeTypes.contains c.ty) = 1 ∧
    specFunctionName (some nestedProgram) outerDecl = some "outer" ∧
    (parseResult "nested.js" nestedProgram).1.length = 2 ∧
    (parseResult "nested.js" nestedProgram).2.length = 0 := by
  decide

/-- C1 (amended): for every parsed tree, extraction yields exactly one
function unit per function node — at any nesting depth, not only top
level — whose resolved name is usable (present, non-empty and not the
literal "anonymous"), and exactly one class unit per class declaration
with a present declared name; a function whose name does not resolve to a
usable name contributes zero units. -/
theorem extraction_unit_counts (fp : String) (root : TSNode)
    (parent : Option TSNode) (n : TSNode)
    (hanon : ¬ usableName (specFunctionName parent n)) :
    (parseResult fp root).1.length = specFunctionCount none root ∧
    (parseResult fp root).2.length = specClassCount root ∧
    functionUnitsAtNode fp parent n = [] := by
  refine ⟨(traverseNode_counts fp none root).1,
    (traverseNode_counts fp none root).2, ?_⟩
  have h := functionUnitsAtNode_length fp parent n
  have hne : ¬ specEmitsFunction parent n := fun hc => hanon hc.2
  rw [if_neg hne] at h
  exact List.length_eq_zero.mp h

theorem extraction_unit_counts_witness :
    (parseResult "nested.js" nestedProgram).1.length =
      specFunctionCount none nestedProgram ∧
    (parseResult "nested.js" nestedProgram).2.length =
      specClassCount nestedProgram ∧
    functionUnitsAtNode "nested.js" (some callArguments) anonCallback = [] :=
  extraction_unit_counts "nested.js" nestedProgram (some callArguments)
    anonCallback (by decide)

theorem codeFunctionName_eq (parent : Option TSNode) (n : TSNode) :
    codeFunctionName parent n = (specFunctionName parent n).getD "anonymous" := by
  unfold codeFunctionName specFunctionName
  by_cases hdecl : n.ty = "function_declaration" ∧ (n.child 1).isSome
  · rw [if_pos hdecl, if_pos hdecl]
    rcases Option.isSome_iff_exists.mp hdecl.2 with ⟨nn, hnn⟩
    rw [hnn]
    rfl
  · rw [if_neg hdecl, if_neg hdecl]
    exact extractFunctionName_eq_specBindingName parent

/-- C6 counterexample: for the arrow function of
`const anonymous = () => 1`, the claimed rule (a) resolves the binding's
name — the literal string "anonymous" — so per the claim the function is
not anonymous and a unit carrying that name should be emitted; the
extractor resolves exactly that name and still discards the unit, because
the emission guard also rejects the name "anonymous" itself. -/
theorem name_resolution_counterexample :
    specBindingName (some anonymousBinding) = some "anonymous" ∧
    extractFunctionName (some anonymousBinding) = "anonymous" ∧
    functionNodeTypes.contains anonNamedArrow.ty = true ∧
    functionUnitsAtNode "f.js" (some anonymousBinding) anonNamedArrow = [] := by
  decide

/-- C6 (amended): for every function node, the name is resolved in the
claimed order — a declaration's explicit name (its second child) first,
else the enclosing variable binding's name, else the enclosing object
property's key — and the node is emitted as a CodeUnit exactly when the
resolved name exists, is non-empty and differs from the literal
"anonymous"; in every other case it is discarded and never emitted. -/
theorem function_name_resolution (fp : String) (parent : Option TSNode)
    (n : TSNode) (hfn : n.ty ∈ functionNodeTypes) :
    functionUnitsAtNode fp parent n =
      match specFunctionName parent n with
      | some s =>
          if s ≠ "" ∧ s ≠ "anonymous" then [⟨n.text, s, fp⟩] else []
      | none => [] := by
  unfold functionUnitsAtNode
  rw [if_pos hfn, codeFunctionName_eq]
  cases hs : specFunctionName parent n with
  | some s => simp
  | none => simp

theorem function_name_resolution_witness :
    functionUnitsAtNode "sample.js" (some addBinding) addArrow =
      match specFunctionName (some addBinding) addArrow with
      | some s =>
          if s ≠ "" ∧ s ≠ "anonymous" then [⟨addArrow.text, s, "sample.js"⟩]
          else []
      | none => [] :=
  function_name_resolution "sample.js" (some addBinding) addArrow (by decide)

/-! ## Embedding service (`embeddingService.js`)

The OpenAI call is modelled as an oracle `svc : String → Except String (List ℚ)`;
`Except.error` models a thrown service error, `Except.ok v` a response whose
`data[0].embedding` is `v`. -/

/-- A function unit as handled by the batch helper: the parser's fields
plus the optional `embedding` attached by `processAndUpdateDictionary`. -/
structure EmbeddedFunction where
  code : String
  function_name : String
  filepath : String
  embedding : Option (List ℚ)
  deriving DecidableEq

/-- A class unit as handled by the batch helper. -/
structure EmbeddedClass where
  code : String
  class_name : String
  filepath : String
  embedding : Option (List ℚ)
  deriving DecidableEq

/-- The dictionary `{functions, classes}` passed through the pipeline. -/
structure CodeDict where
  functions : List EmbeddedFunction
  classes : List EmbeddedClass
  deriving DecidableEq

/-- Embeds `generateEmbeddings` (embeddingService.js lines 31-45): the
whole body is wrapped in try/catch, so a service error is caught, logged
and the function returns `undefined` (here `none`) instead of raising. -/
def generateEmbeddings (svc : String → Except String (List ℚ))
    (text : String) : Option (List ℚ) :=
  match svc text with
  | Except.ok v => some v
  | Except.error _ => none

/-- One iteration of the function loop of `processAndUpdateDictionary`
(embeddingService.js lines 67-72): `if (embedding) func.embedding = embedding`. -/
def updateFunction (svc : String → Except String (List ℚ))
    (f : EmbeddedFunction) : EmbeddedFunction :=
  match generateEmbeddings svc f.code with
  | some e => { f with embedding := some e }
  | none => f

/-- One iteration of the class loop of `processAndUpdateDictionary`
(embeddingService.js lines 75-80). -/
def updateClass (svc : String → Except String (List ℚ))
    (c : EmbeddedClass) : EmbeddedClass :=
  match generateEmbeddings svc c.code with
  | some e => { c with embedding := some e }
  | none => c

/-- Embeds `processAndUpdateDictionary` (embeddingService.js lines 65-83):
every function, then every class, is processed in order; a failed
generation skips the assignment and the loop continues. -/
def processAndUpdateDictionary (svc : String → Except String (List ℚ))
    (dict : CodeDict) : CodeDict :=
  { functions := dict.functions.map (updateFunction svc),
    classes := dict.classes.map (updateClass svc) }

/-- C4: `generateEmbeddings` does not raise — it is a total function that
reports an absent vector on service error and the vector on success — and
the batch helper processes the whole collection without aborting, attaches
the embedding to exactly the units whose generation succeeded and leaves
the field absent on the units whose generation failed (the parser leaves
it absent initially). -/
theorem embedding_failure_reports_absence
    (svc : String → Except String (List ℚ)) (text : String) (dict : CodeDict)
    (hfi : ∀ f ∈ dict.functions, f.embedding = none)
    (hci : ∀ c ∈ dict.classes, c.embedding = none) :
    (∀ e, svc text = Except.error e → generateEmbeddings svc text = none) ∧
    (∀ v, svc text = Except.ok v → generateEmbeddings svc text = some v) ∧
    (processAndUpdateDictionary svc dict).functions =
      dict.functions.map (updateFunction svc) ∧
    (processAndUpdateDictionary svc dict).classes =
      dict.classes.map (updateClass svc) ∧
    (∀ f ∈ dict.functions,
      (updateFunction svc f).embedding = generateEmbeddings svc f.code ∧
      (updateFunction svc f).code = f.code ∧
      (updateFunction svc f).function_name = f.function_name ∧
      (updateFunction svc f).filepath = f.filepath) ∧
    (∀ c ∈ dict.classes,
      (updateClass svc c).embedding = generateEmbeddings svc c.code ∧
      (updateClass svc c).code = c.code ∧
      (updateClass svc c).class_name = c.class_name ∧
      (updateClass svc c).filepath = c.filepath) := by
  refine ⟨?_, ?_, rfl, rfl, ?_, ?_⟩
  · intro e he
    simp [generateEmbeddings, he]
  · intro v hv
    simp [generateEmbeddings, hv]
  · intro f hf
    cases hg : generateEmbeddings svc f.code with
    | some e => simp [updateFunction, hg]
    | none =>
        have hupd : updateFunction svc f = f := by
          simp [updateFunction, hg]
        rw [hupd]
        exact ⟨hfi f hf, rfl, rfl, rfl⟩
  · intro c hc
    cases hg : generateEmbeddings svc c.code with
    | some e => simp [updateClass, hg]
    | none =>
        have hupd : updateClass svc c = c := by
          simp [updateClass, hg]
        rw [hupd]
        exact ⟨hci c hc, rfl, rfl, rfl⟩

/-- An embedding oracle that succeeds on the source of `add` and fails on
everything else. -/
def svcEx : String → Except String (List ℚ) := fun t =>
  if t = "function add(a, b) { return a + b; }" then Except.ok [1, 0]
  else Except.error "service unavailable"

/-- A parsed dictionary with one embeddable and one unembeddable
function. -/
def dictEx : CodeDict :=
  { functions :=
      [⟨"function add(a, b) { return a + b; }", "add", "sample.js", none⟩,
       ⟨"function bad() {}", "bad", "sample.js", none⟩],
    classes := [⟨"class Stack {}", "Stack", "sample.js", none⟩] }

theorem embedding_failure_reports_absence_witness :
    (processAndUpdateDictionary svcEx dictEx).functions =
      dictEx.functions.map (updateFunction svcEx) :=
  (embedding_failure_reports_absence svcEx "q" dictEx (by decide)
    (by decide)).2.2.1

/-! ## Pinecone upsert payload (`PineconeManager.upsertEmbeddings`) -/

/-- One vector of the upsert payload: `{id, values, metadata: {filepath,
type}}` (treeSitterParser.js / pineconeManager lines 283-308). -/
structure VectorItem where
  id : String
  values : List ℚ
  filepath : String
  metadataType : String
  deriving DecidableEq

/-- The body of the functions `forEach` (lines 283-294): push a vector when
`func.embedding && Array.isArray(func.embedding)` holds (here: the
embedding is present). -/
def pushFunctionItem (acc : List VectorItem) (func : EmbeddedFunction) :
    List VectorItem :=
  match func.embedding with
  | some e => acc ++ [⟨func.function_name, e, func.filepath, "function"⟩]
  | none => acc

/-- The body of the classes `forEach` (lines 297-308). -/
def pushClassItem (acc : List VectorItem) (cls : EmbeddedClass) :
    List VectorItem :=
  match cls.embedding with
  | some e => acc ++ [⟨cls.class_name, e, cls.filepath, "class"⟩]
  | none => acc

/-- Embeds the payload construction of `upsertEmbeddings` (lines 280-308):
the functions loop runs first, then the classes loop, both appending to the
same `upsertPayload` array. -/
def upsertPayload (data : CodeDict) : List VectorItem :=
  data.classes.foldl pushClassItem (data.functions.foldl pushFunctionItem [])

/-- Modelled from the spec: the payload required by the claim — exactly the
units whose embedding field is present, each encoded with id the unit name,
values its embedding, and metadata its filepath and its type. -/
def specUpsertPayload (data : CodeDict) : List VectorItem :=
  (data.functions.filter (fun f => f.embedding.isSome)).map
      (fun f => ⟨f.function_name, f.embedding.getD [], f.filepath, "function"⟩)
    ++ (data.classes.filter (fun c => c.embedding.isSome)).map
      (fun c => ⟨c.class_name, c.embedding.getD [], c.filepath, "class"⟩)

theorem foldl_pushFunctionItem (l : List EmbeddedFunction)
    (acc : List VectorItem) :
    l.foldl pushFunctionItem acc =
      acc ++ (l.filter (fun f => f.embedding.isSome)).map
        (fun f => ⟨f.function_name, f.embedding.getD [], f.filepath,
          "function"⟩) := by
  induction l generalizing acc with
  | nil => simp
  | cons x xs ih =>
      cases hx : x.embedding with
      | some e => simp [List.foldl_cons, pushFunctionItem, hx, ih]
      | none => simp [List.foldl_cons, pushFunctionItem, hx, ih]

theorem foldl_pushClassItem (l : List EmbeddedClass) (acc : List VectorItem) :
    l.foldl pushClassItem acc =
      acc ++ (l.filter (fun c => c.embedding.isSome)).map
        (fun c => ⟨c.class_name, c.embedding.getD [], c.filepath,
          "class"⟩) := by
  induction l generalizing acc with
  | nil => simp
  | cons x xs ih =>
      cases hx : x.embedding with
      | some e => simp [List.foldl_cons, pushClassItem, hx, ih]
      | none => simp [List.foldl_cons, pushClassItem, hx, ih]

/-- C5: the upsert payload sent to the vector index contains exactly the
units whose embedding field is present — the functions first, then the
classes, in input order — each encoded with id equal to the unit's name
(`function_name` or `class_name`), values equal to its embedding and
metadata consisting of its filepath and its type ("function" or "class");
units lacking an embedding are filtered out. -/
theorem upsert_payload_filters_missing_embeddings (data : CodeDict) :
    upsertPayload data = specUpsertPayload data := by
  unfold upsertPayload specUpsertPayload
  rw [foldl_pushFunctionItem, foldl_pushClassItem]
  simp

/-! ## Semantic code-search route (`src/app/database/route.js`)

The route is modelled as a pure function of its request and of the
outcomes of its collaborators, returning the HTTP response together with a
trace counting the outbound calls it made.  The route body contains no call
to the chat completion service at all, so the trace's completion counter is
0 on every path. -/

/-- One similarity match as returned by `similaritySearch`: id, score and
the `{filepath, type}` metadata. -/
structure SimMatch where
  id : String
  score : ℚ
  filepath : String
  matchType : String
  deriving DecidableEq

/-- A `NextResponse.json` value: `payload` is a `{text, files?}` body with
its status, `failure` an `{error}` body with its status. -/
inductive DbResponse where
  | payload (text : String) (files : Option (List String)) (status : Nat)
  | failure (error : String) (status : Nat)
  deriving DecidableEq

/-- The outbound calls one request makes: embedding-service calls,
vector-index queries and chat-completion calls. -/
structure DbTrace where
  embedCalls : Nat
  searchCalls : Nat
  chatCompletionCalls : Nat
  deriving DecidableEq

/-- JavaScript `String.indexOf` at character granularity (for a non-empty
pattern): the index of the first occurrence of `pat` in `s`, or -1. -/
def jsIndexOf (s pat : String) : ℤ :=
  match s.splitOn pat with
  | [] => -1
  | [_] => -1
  | first :: _ => (first.length : ℤ)

/-- JavaScript `s.substring(start)` at character granularity: `start` is
clamped into the string. -/
def jsSubstring (s : String) (start : ℤ) : String :=
  s.drop start.toNat

/-- The display path of one match (route.js lines 122-126):
`pathOffset = filepath.indexOf(codebasePath) + 1` and then
`filepath.substring(codebasePath.length + pathOffset)`. -/
def relativeDisplayPath (filepath codebasePath : String) : String :=
  jsSubstring filepath
    ((codebasePath.length : ℤ) + (jsIndexOf filepath codebasePath + 1))

/-- JavaScript `Math.round` on a rational: the floor of `q + 1/2` (halves
round up). -/
def jsRound (q : ℚ) : ℤ := ⌊q + 1 / 2⌋

/-- `Math.round(score * 100)` (route.js line 129). -/
def scorePercentage (score : ℚ) : ℤ := jsRound (score * 100)

/-- The first `answer +=` line of one match (route.js line 132). -/
def headerLine (i : Nat) (m : SimMatch) : String :=
  toString (i + 1) ++ ". **" ++ m.id ++ "** (" ++ m.matchType ++ ")\n"

/-- The second `answer +=` line of one match (route.js line 133). -/
def pathLine (m : SimMatch) (codebasePath : String) : String :=
  "   📁 " ++ relativeDisplayPath m.filepath codebasePath ++ "\n"

/-- The third `answer +=` line of one match (route.js line 134): the score
rendered as `${scorePercentage}% match`. -/
def scoreLine (m : SimMatch) : String :=
  "   🎯 " ++ toString (scorePercentage m.score) ++ "% match\n\n"

/-- The text one loop iteration appends for a match. -/
def matchBlock (i : Nat) (m : SimMatch) (codebasePath : String) : String :=
  headerLine i m ++ (pathLine m codebasePath ++ scoreLine m)

/-- The opening of the answer (route.js line 117). -/
def answerHeader : String :=
  "Here are the most relevant files to your query:\n\n"

/-- The result loop of the route (lines 120-143): append each match's
lines, read the matched file and push its content unless already present
(deduplication by content). -/
def buildLoop (codebasePath : String) (readFile : String → String) :
    Nat → List SimMatch → String → List String → String × List String
  | _, [], answer, files => (answer, files)
  | i, m :: rest, answer, files =>
      let answer2 := answer ++ matchBlock i m codebasePath
      let code := readFile m.filepath
      let files2 := if files.contains code then files else files ++ [code]
      buildLoop codebasePath readFile (i + 1) rest answer2 files2

/-- The JavaScript falsiness test applied to `res.prompt`: absent or the
empty string. -/
def promptFalsy : Option String → Bool
  | none => true
  | some s => s == ""

/-- Embeds `POST /api/database` (route.js lines 73-153).  Inputs: whether
`fs.existsSync(codebasePath)` holds, the request's prompt, whether
`PINECONE_API_KEY` is set, the outcome of embedding-plus-similarity-search
(`Except.error` models a rejection thrown inside the try block) and the
`readCodeFromFile` collaborator. -/
def databasePOST (codebaseExists : Bool) (prompt : Option String)
    (apiKeyPresent : Bool) (codebasePath : String)
    (searchOutcome : Except String (List SimMatch))
    (readFile : String → String) : DbResponse × DbTrace :=
  if codebaseExists = false then
    (DbResponse.payload "You haven't uploaded a codebase yet! Please try again."
      none 200, ⟨0, 0, 0⟩)
  else if promptFalsy prompt then
    (DbResponse.failure "Input is required" 400, ⟨0, 0, 0⟩)
  else if apiKeyPresent = false then
    (DbResponse.failure "API key is missing" 500, ⟨0, 0, 0⟩)
  else
    match searchOutcome with
    | Except.error e =>
        (DbResponse.failure ("Error querying user input: " ++ e) 500,
          ⟨1, 1, 0⟩)
    | Except.ok ms =>
        if ms.length = 0 then
          (DbResponse.payload "No files relevant to your query could be found."
            (some []) 200, ⟨1, 1, 0⟩)
        else
          let res := buildLoop codebasePath readFile 0 ms answerHeader []
          (DbResponse.payload res.1 (some res.2) 200, ⟨1, 1, 0⟩)

/-! ## Claim theorems for the search route -/

/-- C3: when the guards pass and the similarity search returns zero
matches, the route answers with the canned nothing-relevant text and an
empty files list, and the request issues no call to the chat completion
service (the route contains no completion call site, so the completion
counter of the trace is zero on this path). -/
theorem no_match_canned_response (prompt : String) (hp : prompt ≠ "")
    (codebasePath : String) (readFile : String → String) :
    databasePOST true (some prompt) true codebasePath (Except.ok [])
        readFile =
      (DbResponse.payload "No files relevant to your query could be found."
        (some []) 200, ⟨1, 1, 0⟩) ∧
    (databasePOST true (some prompt) true codebasePath (Except.ok [])
        readFile).2.chatCompletionCalls = 0 := by
  have h : databasePOST true (some prompt) true codebasePath (Except.ok [])
      readFile =
      (DbResponse.payload "No files relevant to your query could be found."
        (some []) 200, ⟨1, 1, 0⟩) := by
    simp [databasePOST, promptFalsy, hp]
  exact ⟨h, by rw [h]⟩

theorem no_match_canned_response_witness :
    databasePOST true (some "what does this code do") true "cb"
        (Except.ok []) (fun _ => "") =
      (DbResponse.payload "No files relevant to your query could be found."
        (some []) 200, ⟨1, 1, 0⟩) :=
  (no_match_canned_response "what does this code do" (by decide) "cb"
    (fun _ => "")).1

/-- C10: when the session's codebase directory does not exist, the route
returns the canned upload-first text with success status 200 and makes no
embedding and no vector-index call; the check precedes prompt validation,
so a missing prompt with no codebase still yields the canned message and
never the 400 "Input is required" error. -/
theorem missing_codebase_short_circuits (prompt : Option String)
    (apiKey : Bool) (codebasePath : String)
    (searchOutcome : Except String (List SimMatch))
    (readFile : String → String) :
    databasePOST false prompt apiKey codebasePath searchOutcome readFile =
      (DbResponse.payload
        "You haven't uploaded a codebase yet! Please try again." none 200,
        ⟨0, 0, 0⟩) ∧
    (databasePOST false none apiKey codebasePath searchOutcome readFile).1 ≠
      DbResponse.failure "Input is required" 400 := by
  constructor
  · simp [databasePOST]
  · simp [databasePOST]

/-- Modelled from the spec: a 0-100 percentage with one decimal place
obtained by rounding — the number of tenths of a percent rounded to an
integer, rendered with one digit after the point. -/
def specOneDecimalScoreLine (score : ℚ) : String :=
  let tenths := jsRound (score * 1000)
  "   🎯 " ++ toString (tenths / 10) ++ "." ++ toString (tenths % 10) ++
    "% match\n\n"

/-- C7 counterexample: at similarity score 0.876 the route renders
"   🎯 88% match" — `Math.round(score * 100)`, an integer percentage —
while a 0-100 percentage with one decimal place obtained by rounding is
"87.6"; the rendered line is not the claimed one-decimal rendering. -/
theorem score_render_counterexample :
    scoreLine ⟨"add", 219 / 250, "src/x.js", "function"⟩ =
      "   🎯 88% match\n\n" ∧
    specOneDecimalScoreLine (219 / 250) = "   🎯 87.6% match\n\n" ∧
    scoreLine ⟨"add", 219 / 250, "src/x.js", "function"⟩ ≠
      specOneDecimalScoreLine (219 / 250) := by
  have h88 : scorePercentage (219 / 250) = 88 := by
    unfold scorePercentage jsRound
    norm_num
  have h876 : jsRound ((219 : ℚ) / 250 * 1000) = 876 := by
    unfold jsRound
    norm_num
  have heq1 : scoreLine ⟨"add", 219 / 250, "src/x.js", "function"⟩ =
      "   🎯 88% match\n\n" := by
    show "   🎯 " ++ toString (scorePercentage ((219 : ℚ) / 250)) ++
        "% match\n\n" = _
    rw [h88]
    decide
  have heq2 : specOneDecimalScoreLine (219 / 250) =
      "   🎯 87.6% match\n\n" := by
    show "   🎯 " ++ toString (jsRound ((219 : ℚ) / 250 * 1000) / 10) ++ "." ++
        toString (jsRound ((219 : ℚ) / 250 * 1000) % 10) ++ "% match\n\n" = _
    rw [h876]
    decide
  refine ⟨heq1, heq2, ?_⟩
  rw [heq1, heq2]
  decide

/-- C7 (amended): each rendered match expresses the similarity score as a
0-100 percentage rounded to the nearest integer — `Math.round(score * 100)`,
with no decimal place — and for a score in [0, 1] the rendered integer lies
between 0 and 100. -/
theorem score_rendered_as_integer_percent (i : Nat) (m : SimMatch)
    (codebasePath : String) (h0 : 0 ≤ m.score) (h1 : m.score ≤ 1) :
    matchBlock i m codebasePath =
      headerLine i m ++ (pathLine m codebasePath ++
        ("   🎯 " ++ toString (scorePercentage m.score) ++ "% match\n\n")) ∧
    0 ≤ scorePercentage m.score ∧ scorePercentage m.score ≤ 100 := by
  refine ⟨rfl, ?_, ?_⟩
  · unfold scorePercentage jsRound
    refine Int.le_floor.mpr ?_
    push_cast
    linarith
  · unfold scorePercentage jsRound
    have hlt : ⌊m.score * 100 + 1 / 2⌋ < 101 := by
      refine Int.floor_lt.mpr ?_
      push_cast
      linarith
    omega

theorem score_rendered_as_integer_percent_witness :
    0 ≤ scorePercentage 1 ∧ scorePercentage 1 ≤ 100 :=
  (score_rendered_as_integer_percent 0 ⟨"add", 1, "src/x.js",
    "function"⟩ "cb" zero_le_one (le_refl 1)).2
